import Mathlib

/-!
Verification of the lock-contention profiler `lockstat-solution.py`.

The profiler's core is a BPF program (embedded as C text in the Python file)
with four handlers (`probe_mutex_lock`, `probe_mutex_lock_return`,
`probe_mutex_unlock`, `probe_mutex_init`) operating on five BPF maps, plus a
Python reporting loop.  We embed the maps as association lists, the handlers
as pure state transformers on a record of those maps, and the reporter's
grouping/sorting pass as a list transformation.  u64 arithmetic is modelled
as `Nat` with explicit wrap-around modulo `2 ^ 64`.
-/

namespace LockStat

/-! ### Association-list maps (embedding of BPF_HASH semantics) -/

/-- Lookup of a key in an association list; embeds `map.lookup(&k)`. -/
def alookup {κ ν : Type} [DecidableEq κ] : List (κ × ν) → κ → Option ν
  | [], _ => none
  | (k, v) :: m, k' => if k' = k then some v else alookup m k'

/-- Removal of a key from an association list; embeds `map.delete(&k)`. -/
def adelete {κ ν : Type} [DecidableEq κ] : List (κ × ν) → κ → List (κ × ν)
  | [], _ => []
  | (k, v) :: m, k' => if k' = k then adelete m k' else (k, v) :: adelete m k'

/-- Insert-or-replace of a binding; embeds `map.update(&k, &v)`. -/
def aupdate {κ ν : Type} [DecidableEq κ] (m : List (κ × ν)) (k : κ) (v : ν) :
    List (κ × ν) :=
  (k, v) :: adelete m k

/-! ### u64 arithmetic -/

/-- `2 ^ 64`, the modulus of the C `u64` type. -/
def U64 : Nat := 18446744073709551616

/-- u64 addition with wrap-around, as in `x += y` on `u64` fields. -/
def add64 (a b : Nat) : Nat := (a + b) % U64

/-- u64 subtraction with wrap-around, as in `now - entry->timestamp`. -/
def sub64 (a b : Nat) : Nat := (a % U64 + (U64 - b % U64)) % U64

/-! ### Data model: the BPF map key/value structs -/

/-- `struct thread_mutex_key_t`: key of the durable `locks` table. -/
structure thread_mutex_key_t where
  tid : Nat
  mtx : Nat
  lock_stack_id : Int
  deriving DecidableEq, Repr

/-- `struct thread_mutex_val_t`: cumulative statistics of one `locks` row. -/
structure thread_mutex_val_t where
  wait_time_ns : Nat
  lock_time_ns : Nat
  enter_count : Nat
  deriving DecidableEq, Repr

/-- `struct mutex_timestamp_t`: value of the `lock_start` pending-wait map. -/
structure mutex_timestamp_t where
  mtx : Nat
  timestamp : Nat
  deriving DecidableEq, Repr

/-- `struct mutex_lock_time_key_t`: key of the `lock_end` pending-hold map. -/
structure mutex_lock_time_key_t where
  tid : Nat
  mtx : Nat
  deriving DecidableEq, Repr

/-- `struct mutex_lock_time_val_t`: value of the `lock_end` pending-hold map. -/
structure mutex_lock_time_val_t where
  timestamp : Nat
  stack_id : Int
  deriving DecidableEq, Repr

/-- The five BPF maps of the program (the stack-trace table `stacks` is an
opaque id store owned by the instrumentation runtime; stack ids appear here
only as opaque `Int` values delivered with events). -/
structure BPFState where
  init_stacks : List (Nat × Int)
  locks : List (thread_mutex_key_t × thread_mutex_val_t)
  lock_start : List (Nat × mutex_timestamp_t)
  lock_end : List (mutex_lock_time_key_t × mutex_lock_time_val_t)
  mutex_wait_hist : List (Nat × Nat)
  mutex_lock_hist : List (Nat × Nat)
  deriving DecidableEq, Repr

/-- The empty initial state: all BPF hashes and histograms start empty. -/
def initState : BPFState :=
  { init_stacks := [], locks := [], lock_start := [], lock_end := [],
    mutex_wait_hist := [], mutex_lock_hist := [] }

/-- `hist.increment(slot)`: bump the count of one histogram slot. -/
def hincr (h : List (Nat × Nat)) (slot : Nat) : List (Nat × Nat) :=
  aupdate h slot (add64 ((alookup h slot).getD 0) 1)

/-! ### BCC's log2 helper (`bpf_log2l`, from bcc `src/cc/export/helpers.h`),
called by the handlers to pick a histogram slot. -/

/-- bcc helper `bpf_log2(unsigned int v)`: branchless binary search for the
position of the highest set bit. -/
def bpf_log2 (v0 : Nat) : Nat :=
  let r1 := (if v0 > 0xFFFF then 1 else 0) <<< 4
  let v1 := v0 >>> r1
  let s2 := (if v1 > 0xFF then 1 else 0) <<< 3
  let v2 := v1 >>> s2
  let r2 := r1 ||| s2
  let s3 := (if v2 > 0xF then 1 else 0) <<< 2
  let v3 := v2 >>> s3
  let r3 := r2 ||| s3
  let s4 := (if v3 > 0x3 then 1 else 0) <<< 1
  let v4 := v3 >>> s4
  let r4 := r3 ||| s4
  r4 ||| (v4 >>> 1)

/-- bcc helper `bpf_log2l(unsigned long v)` (the argument is `u64`; the high
word is examined first). -/
def bpf_log2l (v : Nat) : Nat :=
  let hi := v >>> 32
  if hi ≠ 0 then bpf_log2 hi + 32 + 1 else bpf_log2 v + 1

/-! ### The probe handlers -/

/-- `probe_mutex_lock` (uprobe on `pthread_mutex_lock` entry): record the
pending wait `lock_start[pid] = {mtx, now}`. -/
def probe_mutex_lock (s : BPFState) (pid mtx now : Nat) : BPFState :=
  { s with lock_start := aupdate s.lock_start pid ⟨mtx, now⟩ }

/-- `probe_mutex_lock_return` (uretprobe on `pthread_mutex_lock`): consume the
pending wait, credit the wait time (and on success the enter count) to the
`locks` row, bump the wait histogram, and on success open a pending hold.
`rc` is `PT_REGS_RC(ctx)`, `stack_id` the result of `stacks.get_stackid`. -/
def probe_mutex_lock_return (s : BPFState) (pid rc : Nat) (stack_id : Int)
    (now : Nat) : BPFState :=
  match alookup s.lock_start pid with
  | none => s   -- Missed the entry
  | some entry =>
    let wait_time := sub64 now entry.timestamp
    let s :=
      if rc = 0 then
        { s with lock_end :=
            aupdate s.lock_end ⟨pid, entry.mtx⟩ ⟨now, stack_id⟩ }
      else s
    let tm_key : thread_mutex_key_t := ⟨pid, entry.mtx, stack_id⟩
    let existing_tm_val := (alookup s.locks tm_key).getD ⟨0, 0, 0⟩
    let existing_tm_val :=
      { existing_tm_val with
          wait_time_ns := add64 existing_tm_val.wait_time_ns wait_time }
    let existing_tm_val :=
      if rc = 0 then
        { existing_tm_val with
            enter_count := add64 existing_tm_val.enter_count 1 }
      else existing_tm_val
    let s := { s with locks := aupdate s.locks tm_key existing_tm_val }
    let mtx_slot := bpf_log2l (wait_time / 1000)
    let s := { s with mutex_wait_hist := hincr s.mutex_wait_hist mtx_slot }
    { s with lock_start := adelete s.lock_start pid }

/-- `probe_mutex_unlock` (uprobe on `pthread_mutex_unlock`): consume the
pending hold, credit the hold time to the `locks` row stored in it, and bump
the hold histogram. -/
def probe_mutex_unlock (s : BPFState) (pid mtx now : Nat) : BPFState :=
  match alookup s.lock_end ⟨pid, mtx⟩ with
  | none => s   -- Missed the lock of this mutex
  | some lock_val =>
    let hold_time := sub64 now lock_val.timestamp
    let tm_key : thread_mutex_key_t := ⟨pid, mtx, lock_val.stack_id⟩
    match alookup s.locks tm_key with
    | none => s   -- Couldn't find this record
    | some existing_tm_val =>
      let new_tm_val :=
        { existing_tm_val with
            lock_time_ns := add64 existing_tm_val.lock_time_ns hold_time }
      let s := { s with locks := aupdate s.locks tm_key new_tm_val }
      let slot := bpf_log2l (hold_time / 1000)
      let s := { s with mutex_lock_hist := hincr s.mutex_lock_hist slot }
      { s with lock_end := adelete s.lock_end ⟨pid, mtx⟩ }

/-- `probe_mutex_init` (uprobe on `pthread_mutex_init`): remember the stack
that initialized the mutex. -/
def probe_mutex_init (s : BPFState) (mutex_addr : Nat) (stack_id : Int) :
    BPFState :=
  { s with init_stacks := aupdate s.init_stacks mutex_addr stack_id }

/-! ### Event streams -/

/-- One instrumentation callback delivery.  `lock t m now` is
`AttemptStart(t, m, now)`; `lockReturn t rc sid now` is
`AttemptEnd(t, now, sid, rc == 0)`; `unlock t m now` is `Release(t, m, now)`;
`init m sid` is `Init(m, sid)`. -/
inductive Event where
  | lock (tid mtx now : Nat)
  | lockReturn (tid rc : Nat) (stackId : Int) (now : Nat)
  | unlock (tid mtx now : Nat)
  | init (mtx : Nat) (stackId : Int)
  deriving DecidableEq, Repr

/-- Dispatch one event to its handler. -/
def step (s : BPFState) : Event → BPFState
  | .lock t m now => probe_mutex_lock s t m now
  | .lockReturn t rc sid now => probe_mutex_lock_return s t rc sid now
  | .unlock t m now => probe_mutex_unlock s t m now
  | .init m sid => probe_mutex_init s m sid

/-- Process an event list in order. -/
def processEvents (es : List Event) (s : BPFState) : BPFState :=
  es.foldl step s

/-- The state reached from the empty initial state by a trace. -/
def runEvents (es : List Event) : BPFState :=
  processEvents es initState

/-! ### Projections used to state the claims -/

/-- Cumulative `wait_time_ns` of a `locks` row (0 if the row is absent). -/
def waitOf (s : BPFState) (k : thread_mutex_key_t) : Nat :=
  ((alookup s.locks k).getD ⟨0, 0, 0⟩).wait_time_ns

/-- Cumulative `lock_time_ns` of a `locks` row (0 if the row is absent). -/
def lockTimeOf (s : BPFState) (k : thread_mutex_key_t) : Nat :=
  ((alookup s.locks k).getD ⟨0, 0, 0⟩).lock_time_ns

/-- Cumulative `enter_count` of a `locks` row (0 if the row is absent). -/
def enterOf (s : BPFState) (k : thread_mutex_key_t) : Nat :=
  ((alookup s.locks k).getD ⟨0, 0, 0⟩).enter_count

/-- Count held in one histogram slot (0 if never incremented). -/
def histCount (h : List (Nat × Nat)) (slot : Nat) : Nat :=
  (alookup h slot).getD 0

/-! ### Non-interference of intervening events -/

/-- `e` is neither an `AttemptStart` nor an `AttemptEnd` of thread `t`
(the intervening events allowed by C1). -/
def noAttemptOf (t : Nat) : Event → Prop
  | .lock t' _ _ => t' ≠ t
  | .lockReturn t' _ _ _ => t' ≠ t
  | .unlock _ _ _ => True
  | .init _ _ => True

/-- `e` is not an event for the (thread, lock) pair `(t, l)`
(the intervening events allowed by C2). -/
def noPairEventOf (t l : Nat) : Event → Prop
  | .lock t' l' _ => ¬(t' = t ∧ l' = l)
  | .lockReturn _ _ _ _ => True
  | .unlock t' l' _ => ¬(t' = t ∧ l' = l)
  | .init _ _ => True

instance noAttemptOf.decidable (t : Nat) (e : Event) :
    Decidable (noAttemptOf t e) := by
  unfold noAttemptOf; cases e <;> infer_instance

instance noPairEventOf.decidable (t l : Nat) (e : Event) :
    Decidable (noPairEventOf t l e) := by
  unfold noPairEventOf; cases e <;> infer_instance

/-! ### Reachable-state invariant backing C7 -/

/-- Invariant of all reachable states: every `lock_end` (pending hold) entry
points to an existing `locks` row — the row was created by `lookup_or_init`
in the same `probe_mutex_lock_return` invocation that stored the hold, and
`locks` rows are never deleted. -/
def holdsPointToRows (s : BPFState) : Prop :=
  ∀ (t l : Nat) (v : mutex_lock_time_val_t),
    alookup s.lock_end ⟨t, l⟩ = some v →
    (alookup s.locks ⟨t, l, v.stack_id⟩).isSome

/-! ### The reporter's grouping and sorting pass (`run`, lines 187–197) -/

/-- One row of the durable statistics table, as iterated by the reporter. -/
abbrev LockRow := thread_mutex_key_t × thread_mutex_val_t

/-- Comparator of the reporter's outer sort,
`sorted(locks.items(), key=grouper)` with `grouper = lambda (k, v): k.tid`. -/
def byThread (a b : LockRow) : Bool := decide (a.1.tid ≤ b.1.tid)

/-- Comparator of the reporter's inner sort,
`sorted(items, key=lambda (k, v): -v.wait_time_ns)`: ascending in the negated
wait time, i.e. descending in the wait time. -/
def byWaitDesc (a b : LockRow) : Bool :=
  decide (b.2.wait_time_ns ≤ a.2.wait_time_ns)

/-- Maximal runs of equal keys; embeds `itertools.groupby(..., key)` as the
reporter applies it to a list sorted by the same key. -/
def groupRuns {α κ : Type} [DecidableEq κ] (f : α → κ) : List α → List (List α)
  | [] => []
  | a :: as =>
    match groupRuns f as with
    | [] => [[a]]
    | [] :: gs => [a] :: gs
    | (b :: g) :: gs =>
      if f a = f b then (a :: b :: g) :: gs else [a] :: (b :: g) :: gs

/-- The reporter's grouped, sorted view of the `locks` table: sort rows by
thread id, group consecutive rows of one thread, and sort each thread's group
by descending cumulative wait time.  Python's `sorted` is a stable mergesort,
embedded as `List.mergeSort`. -/
def reportGroups (rows : List LockRow) : List (List LockRow) :=
  (groupRuns (fun r => r.1.tid) (rows.mergeSort byThread)).map
    (fun g => g.mergeSort byWaitDesc)

/-! ### The command-line surface (`__main__`, lines 201–205) -/

/-- Outcome of the script's entry point. -/
inductive MainOutcome where
  | usageExit (message : String) (exitStatus : Nat)
  | runLoop (pidArg : String)
  deriving DecidableEq, Repr

/-- The usage line printed on a missing argument:
`"USAGE: %s pid" % sys.argv[0]`. -/
def usageLine (argv : List String) : String :=
  "USAGE: " ++ argv.headD "" ++ " pid"

/-- `__main__`: with fewer than two entries in `sys.argv`, print the usage
line and fall off the end of the script — the interpreter then exits with
status 0; otherwise call `run(int(sys.argv[1]))` (the `int` conversion of the
argument text is elided here), which never returns. -/
def pythonMain (argv : List String) : MainOutcome :=
  if argv.length < 2 then .usageExit (usageLine argv) 0
  else .runLoop (argv.getD 1 "")

/-- The guard of the reporter's polling loop in `run` (line 175):
`while True` — constantly true, and the loop body contains no `break` or
`return`, so the loop is left only by external termination. -/
def runLoopGuard : Bool := true

/-! ### Theorems -/

theorem alookup_adelete_self {κ ν : Type} [DecidableEq κ]
    (m : List (κ × ν)) (k : κ) : alookup (adelete m k) k = none := by
  induction m with
  | nil => rfl
  | cons p m ih =>
    obtain ⟨k', v⟩ := p
    by_cases h : k = k'
    · subst h
      simp [adelete, alookup, ih]
    · simp [adelete, alookup, h, Ne.symm h, ih]

theorem alookup_adelete_ne {κ ν : Type} [DecidableEq κ]
    (m : List (κ × ν)) (k k' : κ) (h : k' ≠ k) :
    alookup (adelete m k) k' = alookup m k' := by
  induction m with
  | nil => rfl
  | cons p m ih =>
    obtain ⟨k₀, v⟩ := p
    by_cases h0 : k = k₀
    · subst h0
      simp [adelete, alookup, h, ih]
    · by_cases h1 : k' = k₀ <;> simp [adelete, alookup, h0, h1, ih]

theorem alookup_aupdate_self {κ ν : Type} [DecidableEq κ]
    (m : List (κ × ν)) (k : κ) (v : ν) : alookup (aupdate m k v) k = some v := by
  simp [aupdate, alookup]

theorem alookup_aupdate_ne {κ ν : Type} [DecidableEq κ]
    (m : List (κ × ν)) (k k' : κ) (v : ν) (h : k' ≠ k) :
    alookup (aupdate m k v) k' = alookup m k' := by
  simp [aupdate, alookup, h, alookup_adelete_ne m k k' h]

theorem sub64_eq (a b : Nat) (hb : b ≤ a) (ha : a < U64) : sub64 a b = a - b := by
  simp only [sub64, U64] at *
  omega

theorem add64_eq (a b : Nat) (h : a + b < U64) : add64 a b = a + b := by
  simp only [add64, U64] at *
  omega

theorem histCount_hincr_self (h : List (Nat × Nat)) (slot : Nat) :
    histCount (hincr h slot) slot = add64 (histCount h slot) 1 := by
  simp [histCount, hincr, alookup_aupdate_self]

theorem histCount_hincr_ne (h : List (Nat × Nat)) (slot slot' : Nat)
    (hne : slot' ≠ slot) : histCount (hincr h slot) slot' = histCount h slot' := by
  simp [histCount, hincr, alookup_aupdate_ne _ _ _ _ hne]

theorem isSome_alookup_aupdate {κ ν : Type} [DecidableEq κ]
    (m : List (κ × ν)) (k' k : κ) (v : ν) (h : (alookup m k).isSome) :
    (alookup (aupdate m k' v) k).isSome := by
  by_cases hk : k = k'
  · subst hk
    simp [alookup_aupdate_self]
  · simpa [alookup_aupdate_ne _ _ _ _ hk] using h

theorem alookup_adelete_eq_some {κ ν : Type} [DecidableEq κ]
    (m : List (κ × ν)) (k k' : κ) (v : ν)
    (h : alookup (adelete m k) k' = some v) : alookup m k' = some v := by
  by_cases hk : k' = k
  · subst hk
    rw [alookup_adelete_self] at h
    cases h
  · rwa [alookup_adelete_ne _ _ _ hk] at h

/-- A step by an event that is no lock attempt of thread `t` preserves
thread `t`'s pending wait and the `wait_time_ns`/`enter_count` of every
`locks` row keyed by `t`. -/
theorem step_preserves_thread_stats (s : BPFState) (e : Event) (t : Nat)
    (he : noAttemptOf t e) :
    alookup (step s e).lock_start t = alookup s.lock_start t ∧
    ∀ k : thread_mutex_key_t, k.tid = t →
      waitOf (step s e) k = waitOf s k ∧ enterOf (step s e) k = enterOf s k := by
  cases e with
  | lock t' m now =>
    refine ⟨?_, fun k hk => ⟨rfl, rfl⟩⟩
    exact alookup_aupdate_ne _ _ _ _ (fun hh => he (hh ▸ rfl))
  | lockReturn t' rc sid now =>
    have hne : t' ≠ t := he
    simp only [step, probe_mutex_lock_return]
    rcases h1 : alookup s.lock_start t' with _ | entry
    · exact ⟨rfl, fun k hk => ⟨rfl, rfl⟩⟩
    · dsimp only
      have hkey : ∀ k : thread_mutex_key_t, k.tid = t →
          k ≠ ⟨t', entry.mtx, sid⟩ := by
        intro k hk hh
        rw [hh] at hk
        exact hne hk
      by_cases hrc : rc = 0
      · simp only [hrc, if_true, ite_true, if_pos rfl]
        refine ⟨alookup_adelete_ne _ _ _ (Ne.symm hne), fun k hk => ?_⟩
        constructor <;>
          simp [waitOf, enterOf, alookup_aupdate_ne _ _ _ _ (hkey k hk)]
      · simp only [if_neg hrc]
        refine ⟨alookup_adelete_ne _ _ _ (Ne.symm hne), fun k hk => ?_⟩
        constructor <;>
          simp [waitOf, enterOf, alookup_aupdate_ne _ _ _ _ (hkey k hk)]
  | unlock t' l' now =>
    simp only [step, probe_mutex_unlock]
    rcases h1 : alookup s.lock_end ⟨t', l'⟩ with _ | lv
    · exact ⟨rfl, fun k hk => ⟨rfl, rfl⟩⟩
    · dsimp only
      rcases h2 : alookup s.locks ⟨t', l', lv.stack_id⟩ with _ | v
      · exact ⟨rfl, fun k hk => ⟨rfl, rfl⟩⟩
      · refine ⟨rfl, fun k hk => ?_⟩
        by_cases hkey : k = (⟨t', l', lv.stack_id⟩ : thread_mutex_key_t)
        · subst hkey
          constructor <;> simp [waitOf, enterOf, alookup_aupdate_self, h2]
        · constructor <;>
            simp [waitOf, enterOf, h2, alookup_aupdate_ne _ _ _ _ hkey]
  | init m sid =>
    exact ⟨rfl, fun k hk => ⟨rfl, rfl⟩⟩

/-- Iterated version of `step_preserves_thread_stats`. -/
theorem processEvents_preserves_thread_stats (es : List Event) (s : BPFState)
    (t : Nat) (hes : ∀ e ∈ es, noAttemptOf t e) :
    alookup (processEvents es s).lock_start t = alookup s.lock_start t ∧
    ∀ k : thread_mutex_key_t, k.tid = t →
      waitOf (processEvents es s) k = waitOf s k ∧
      enterOf (processEvents es s) k = enterOf s k := by
  induction es generalizing s with
  | nil => exact ⟨rfl, fun _ _ => ⟨rfl, rfl⟩⟩
  | cons e es ih =>
    have h1 := step_preserves_thread_stats s e t (hes e (by simp))
    have h2 := ih (step s e) (fun e' he' => hes e' (by simp [he']))
    have hfold : processEvents (e :: es) s = processEvents es (step s e) := rfl
    rw [hfold]
    refine ⟨h2.1.trans h1.1, fun k hk => ?_⟩
    exact ⟨(h2.2 k hk).1.trans (h1.2 k hk).1, (h2.2 k hk).2.trans (h1.2 k hk).2⟩

/-- A step by an event that does not concern the pair `(t, l)` preserves an
open pending hold for `(t, l)`, the existence and `lock_time_ns` of the
`locks` row it points to, and the absence of a pending wait of `t` on `l`. -/
theorem step_preserves_pending_hold (s : BPFState) (e : Event)
    (t l T1 : Nat) (sid : Int) (he : noPairEventOf t l e)
    (hhold : alookup s.lock_end ⟨t, l⟩ = some ⟨T1, sid⟩)
    (hrow : (alookup s.locks ⟨t, l, sid⟩).isSome)
    (hstart : ∀ T', alookup s.lock_start t ≠ some ⟨l, T'⟩) :
    alookup (step s e).lock_end ⟨t, l⟩ = some ⟨T1, sid⟩ ∧
    (alookup (step s e).locks ⟨t, l, sid⟩).isSome ∧
    lockTimeOf (step s e) ⟨t, l, sid⟩ = lockTimeOf s ⟨t, l, sid⟩ ∧
    (∀ T', alookup (step s e).lock_start t ≠ some ⟨l, T'⟩) := by
  cases e with
  | lock t' m now =>
    refine ⟨hhold, hrow, rfl, ?_⟩
    intro T' hT'
    by_cases ht : t' = t
    · subst ht
      rw [show (step s (.lock t' m now)).lock_start
            = aupdate s.lock_start t' ⟨m, now⟩ from rfl,
          alookup_aupdate_self] at hT'
      have hml : (⟨m, now⟩ : mutex_timestamp_t) = ⟨l, T'⟩ := Option.some.inj hT'
      exact he ⟨rfl, congrArg mutex_timestamp_t.mtx hml⟩
    · rw [show (step s (.lock t' m now)).lock_start
            = aupdate s.lock_start t' ⟨m, now⟩ from rfl,
          alookup_aupdate_ne _ _ _ _ (fun hh => ht hh.symm)] at hT'
      exact hstart T' hT'
  | lockReturn t' rc sid' now =>
    simp only [step, probe_mutex_lock_return]
    rcases h1 : alookup s.lock_start t' with _ | entry
    · exact ⟨hhold, hrow, rfl, hstart⟩
    · dsimp only
      have hmtx : t' = t → entry.mtx ≠ l := by
        intro ht hm
        subst ht
        exact hstart entry.timestamp (by rw [h1]; congr 1; cases entry; simp at hm ⊢; exact hm)
      have hkey_end : (⟨t, l⟩ : mutex_lock_time_key_t) ≠ ⟨t', entry.mtx⟩ := by
        intro hh
        injection hh with h1' h2'
        exact hmtx h1'.symm h2'.symm
      have hkey_locks : (⟨t, l, sid⟩ : thread_mutex_key_t)
          ≠ ⟨t', entry.mtx, sid'⟩ := by
        intro hh
        injection hh with h1' h2' h3'
        exact hmtx h1'.symm h2'.symm
      have hstart' : ∀ T', alookup (adelete s.lock_start t') t ≠ some ⟨l, T'⟩ := by
        intro T'
        by_cases ht : t' = t
        · subst ht
          rw [alookup_adelete_self]
          exact fun hh => Option.noConfusion hh
        · rw [alookup_adelete_ne _ _ _ (fun hh => ht hh.symm)]
          exact hstart T'
      by_cases hrc : rc = 0
      · simp only [hrc, if_pos rfl, ite_true]
        exact ⟨(alookup_aupdate_ne _ _ _ _ hkey_end).trans hhold,
          by simpa [alookup_aupdate_ne _ _ _ _ hkey_locks] using hrow,
          by simp [lockTimeOf, alookup_aupdate_ne _ _ _ _ hkey_locks],
          hstart'⟩
      · simp only [if_neg hrc]
        exact ⟨hhold,
          by simpa [alookup_aupdate_ne _ _ _ _ hkey_locks] using hrow,
          by simp [lockTimeOf, alookup_aupdate_ne _ _ _ _ hkey_locks],
          hstart'⟩
  | unlock t' l' now =>
    simp only [step, probe_mutex_unlock]
    rcases h1 : alookup s.lock_end ⟨t', l'⟩ with _ | lv
    · exact ⟨hhold, hrow, rfl, hstart⟩
    · dsimp only
      rcases h2 : alookup s.locks ⟨t', l', lv.stack_id⟩ with _ | v
      · exact ⟨hhold, hrow, rfl, hstart⟩
      · have hpair : ¬(t' = t ∧ l' = l) := he
        have hkey_end : (⟨t, l⟩ : mutex_lock_time_key_t) ≠ ⟨t', l'⟩ := by
          intro hh
          injection hh with h1' h2'
          exact hpair ⟨h1'.symm, h2'.symm⟩
        have hkey_locks : (⟨t, l, sid⟩ : thread_mutex_key_t)
            ≠ ⟨t', l', lv.stack_id⟩ := by
          intro hh
          injection hh with h1' h2' h3'
          exact hpair ⟨h1'.symm, h2'.symm⟩
        exact ⟨(alookup_adelete_ne _ _ _ hkey_end).trans hhold,
          by simpa [alookup_aupdate_ne _ _ _ _ hkey_locks] using hrow,
          by simp [lockTimeOf, alookup_aupdate_ne _ _ _ _ hkey_locks],
          hstart⟩
  | init m sid'' =>
    exact ⟨hhold, hrow, rfl, hstart⟩

/-- Iterated version of `step_preserves_pending_hold`. -/
theorem processEvents_preserves_pending_hold (es : List Event) (s : BPFState)
    (t l T1 : Nat) (sid : Int) (hes : ∀ e ∈ es, noPairEventOf t l e)
    (hhold : alookup s.lock_end ⟨t, l⟩ = some ⟨T1, sid⟩)
    (hrow : (alookup s.locks ⟨t, l, sid⟩).isSome)
    (hstart : ∀ T', alookup s.lock_start t ≠ some ⟨l, T'⟩) :
    alookup (processEvents es s).lock_end ⟨t, l⟩ = some ⟨T1, sid⟩ ∧
    (alookup (processEvents es s).locks ⟨t, l, sid⟩).isSome ∧
    lockTimeOf (processEvents es s) ⟨t, l, sid⟩ = lockTimeOf s ⟨t, l, sid⟩ := by
  induction es generalizing s with
  | nil => exact ⟨hhold, hrow, rfl⟩
  | cons e es ih =>
    obtain ⟨p1, p2, p3, p4⟩ :=
      step_preserves_pending_hold s e t l T1 sid (hes e (by simp)) hhold hrow hstart
    obtain ⟨q1, q2, q3⟩ := ih (step s e) (fun e' he' => hes e' (by simp [he'])) p1 p2 p4
    exact ⟨q1, q2, q3.trans p3⟩

/-- C2: a successful `AttemptEnd` at `T1` (which stores the pending hold
`lock_end[t, l] = (T1, sid)`) followed — after any events not concerning the
pair `(t, l)` — by a `Release(t, l, T2)` adds exactly `T2 − T1` to the
`lock_time_ns` of the `locks` row keyed by the exact key `(t, l, sid)` stored
in the pending hold. -/
theorem hold_time_accounting (s : BPFState) (t l T0 : Nat) (sid : Int)
    (T1 : Nat) (es : List Event) (T2 : Nat)
    (hpend : alookup s.lock_start t = some ⟨l, T0⟩)
    (hes : ∀ e ∈ es, noPairEventOf t l e)
    (hord : T1 ≤ T2) (hT2 : T2 < U64)
    (hlock : lockTimeOf s ⟨t, l, sid⟩ + (T2 - T1) < U64) :
    lockTimeOf (probe_mutex_unlock
        (processEvents es (probe_mutex_lock_return s t 0 sid T1)) t l T2)
      ⟨t, l, sid⟩ = lockTimeOf s ⟨t, l, sid⟩ + (T2 - T1) := by
  have hhold1 : alookup (probe_mutex_lock_return s t 0 sid T1).lock_end ⟨t, l⟩
      = some ⟨T1, sid⟩ := by
    simp only [probe_mutex_lock_return, hpend, if_pos rfl, ite_true]
    exact alookup_aupdate_self _ _ _
  have hrow1 : (alookup (probe_mutex_lock_return s t 0 sid T1).locks
      ⟨t, l, sid⟩).isSome := by
    simp only [probe_mutex_lock_return, hpend, if_pos rfl, ite_true]
    simp [alookup_aupdate_self]
  have hlt1 : lockTimeOf (probe_mutex_lock_return s t 0 sid T1) ⟨t, l, sid⟩
      = lockTimeOf s ⟨t, l, sid⟩ := by
    simp only [probe_mutex_lock_return, hpend, if_pos rfl, ite_true, lockTimeOf]
    simp [alookup_aupdate_self]
  have hstart1 : ∀ T',
      alookup (probe_mutex_lock_return s t 0 sid T1).lock_start t
        ≠ some ⟨l, T'⟩ := by
    intro T'
    simp only [probe_mutex_lock_return, hpend, if_pos rfl, ite_true]
    rw [show ({ s with
        lock_end := aupdate s.lock_end ⟨t, l⟩ ⟨T1, sid⟩ } : BPFState).lock_start
      = s.lock_start from rfl]
    rw [alookup_adelete_self]
    exact fun h => Option.noConfusion h
  obtain ⟨q1, q2, q3⟩ := processEvents_preserves_pending_hold es
    (probe_mutex_lock_return s t 0 sid T1) t l T1 sid hes hhold1 hrow1 hstart1
  rcases hv : alookup
      (processEvents es (probe_mutex_lock_return s t 0 sid T1)).locks
      ⟨t, l, sid⟩ with _ | v
  · rw [hv] at q2
    exact absurd q2 (by simp)
  · simp only [probe_mutex_unlock, q1]
    simp only [hv]
    simp only [lockTimeOf, alookup_aupdate_self, Option.getD_some]
    have hvlock : v.lock_time_ns = lockTimeOf s ⟨t, l, sid⟩ := by
      have hq := q3.trans hlt1
      simpa [lockTimeOf, hv] using hq
    rw [sub64_eq T2 T1 hord hT2, hvlock]
    exact add64_eq _ _ hlock

theorem hold_time_accounting_witness :
    lockTimeOf (probe_mutex_unlock
        (processEvents [.lock 2 7 150, .unlock 2 9 200]
          (probe_mutex_lock_return (runEvents [.lock 1 7 100]) 1 0 3 2100))
        1 7 52100) ⟨1, 7, 3⟩
      = lockTimeOf (runEvents [.lock 1 7 100]) ⟨1, 7, 3⟩ + (52100 - 2100) :=
  hold_time_accounting (runEvents [.lock 1 7 100]) 1 7 100 3 2100
    [.lock 2 7 150, .unlock 2 9 200] 52100 (by decide) (by decide) (by decide)
    (by decide) (by decide)

/-- C1: an `AttemptStart(t, l, T0)` followed — after any events that are no
lock attempt of thread `t` — by a successful `AttemptEnd` at `T1` with call
site `sid` adds exactly `T1 − T0` to `wait_time_ns` and exactly 1 to
`enter_count` of the `locks` row keyed `(t, l, sid)`, the row existing
afterwards (zero-initialized by `lookup_or_init` if it was absent). -/
theorem successful_attempt_wait_and_enter (s : BPFState) (t l T0 : Nat)
    (es : List Event) (sid : Int) (T1 : Nat)
    (hes : ∀ e ∈ es, noAttemptOf t e)
    (hord : T0 ≤ T1) (hT1 : T1 < U64)
    (hwait : waitOf s ⟨t, l, sid⟩ + (T1 - T0) < U64)
    (henter : enterOf s ⟨t, l, sid⟩ + 1 < U64) :
    waitOf (probe_mutex_lock_return
        (processEvents es (probe_mutex_lock s t l T0)) t 0 sid T1) ⟨t, l, sid⟩
      = waitOf s ⟨t, l, sid⟩ + (T1 - T0) ∧
    enterOf (probe_mutex_lock_return
        (processEvents es (probe_mutex_lock s t l T0)) t 0 sid T1) ⟨t, l, sid⟩
      = enterOf s ⟨t, l, sid⟩ + 1 ∧
    (alookup (probe_mutex_lock_return
        (processEvents es (probe_mutex_lock s t l T0)) t 0 sid T1).locks
      ⟨t, l, sid⟩).isSome := by
  obtain ⟨hls, hrows⟩ :=
    processEvents_preserves_thread_stats es (probe_mutex_lock s t l T0) t hes
  have h0 : alookup (probe_mutex_lock s t l T0).lock_start t
      = some ⟨l, T0⟩ := alookup_aupdate_self _ _ _
  have hpend : alookup
      (processEvents es (probe_mutex_lock s t l T0)).lock_start t
      = some ⟨l, T0⟩ := hls.trans h0
  have hw2 := (hrows ⟨t, l, sid⟩ rfl).1
  have he2 := (hrows ⟨t, l, sid⟩ rfl).2
  have hw1 : waitOf (probe_mutex_lock s t l T0) ⟨t, l, sid⟩
      = waitOf s ⟨t, l, sid⟩ := rfl
  have he1 : enterOf (probe_mutex_lock s t l T0) ⟨t, l, sid⟩
      = enterOf s ⟨t, l, sid⟩ := rfl
  rw [hw1] at hw2
  rw [he1] at he2
  simp only [waitOf, enterOf] at hw2 he2
  simp only [probe_mutex_lock_return, hpend, if_pos rfl, ite_true]
  refine ⟨?_, ?_, ?_⟩
  · simp only [waitOf, alookup_aupdate_self, Option.getD_some]
    rw [sub64_eq T1 T0 hord hT1, hw2]
    simp only [waitOf] at hwait
    exact add64_eq _ _ hwait
  · simp only [enterOf, alookup_aupdate_self, Option.getD_some]
    rw [he2]
    simp only [enterOf] at henter
    exact add64_eq _ _ henter
  · simp only [alookup_aupdate_self, Option.isSome_some]

theorem successful_attempt_wait_and_enter_witness :
    waitOf (probe_mutex_lock_return
        (processEvents [.lock 2 7 150] (probe_mutex_lock initState 1 7 100))
        1 0 3 2100) ⟨1, 7, 3⟩
      = waitOf initState ⟨1, 7, 3⟩ + (2100 - 100) ∧
    enterOf (probe_mutex_lock_return
        (processEvents [.lock 2 7 150] (probe_mutex_lock initState 1 7 100))
        1 0 3 2100) ⟨1, 7, 3⟩
      = enterOf initState ⟨1, 7, 3⟩ + 1 ∧
    (alookup (probe_mutex_lock_return
        (processEvents [.lock 2 7 150] (probe_mutex_lock initState 1 7 100))
        1 0 3 2100).locks ⟨1, 7, 3⟩).isSome :=
  successful_attempt_wait_and_enter initState 1 7 100 [.lock 2 7 150] 3 2100
    (by decide) (by decide) (by decide) (by decide) (by decide)

theorem step_preserves_holdsPointToRows (s : BPFState) (e : Event)
    (h : holdsPointToRows s) : holdsPointToRows (step s e) := by
  cases e with
  | lock t' m now => exact h
  | lockReturn t' rc sid now =>
    simp only [step, probe_mutex_lock_return]
    rcases h1 : alookup s.lock_start t' with _ | entry
    · exact h
    · dsimp only
      by_cases hrc : rc = 0
      · simp only [hrc, if_pos rfl, ite_true]
        intro t l v hv
        by_cases hk : (⟨t, l⟩ : mutex_lock_time_key_t) = ⟨t', entry.mtx⟩
        · rw [hk, alookup_aupdate_self] at hv
          have ht : t = t' := congrArg mutex_lock_time_key_t.tid hk
          have hl : l = entry.mtx := congrArg mutex_lock_time_key_t.mtx hk
          have hsid : v.stack_id = sid := by
            cases Option.some.inj hv
            rfl
          subst ht hl
          rw [hsid]
          simp [alookup_aupdate_self]
        · rw [alookup_aupdate_ne _ _ _ _ hk] at hv
          exact isSome_alookup_aupdate _ _ _ _ (h t l v hv)
      · simp only [if_neg hrc]
        intro t l v hv
        exact isSome_alookup_aupdate _ _ _ _ (h t l v hv)
  | unlock t' l' now =>
    simp only [step, probe_mutex_unlock]
    rcases h1 : alookup s.lock_end ⟨t', l'⟩ with _ | lv
    · exact h
    · dsimp only
      rcases h2 : alookup s.locks ⟨t', l', lv.stack_id⟩ with _ | v0
      · exact h
      · intro t l v hv
        have hv' := alookup_adelete_eq_some _ _ _ _ hv
        exact isSome_alookup_aupdate _ _ _ _ (h t l v hv')
  | init m sid => exact h

theorem runEvents_holdsPointToRows (es : List Event) :
    holdsPointToRows (runEvents es) := by
  suffices hgen : ∀ s, holdsPointToRows s → holdsPointToRows (processEvents es s) by
    refine hgen initState ?_
    intro t l v hv
    cases hv
  induction es with
  | nil => exact fun s hs => hs
  | cons e es ih =>
    intro s hs
    exact ih (step s e) (step_preserves_holdsPointToRows s e hs)

/-- C7: in any reachable state, a `Release` that finds a pending hold for
`(t, l)` consumes it: afterwards `lock_end[t, l]` is absent. -/
theorem release_consumes_pending_hold (es : List Event) (t l T2 : Nat)
    (v : mutex_lock_time_val_t)
    (hhold : alookup (runEvents es).lock_end ⟨t, l⟩ = some v) :
    alookup (probe_mutex_unlock (runEvents es) t l T2).lock_end ⟨t, l⟩
      = none := by
  have hrow := runEvents_holdsPointToRows es t l v hhold
  rcases hr : alookup (runEvents es).locks ⟨t, l, v.stack_id⟩ with _ | w
  · rw [hr] at hrow
    simp at hrow
  · simp only [probe_mutex_unlock, hhold, hr]
    exact alookup_adelete_self _ _

theorem release_consumes_pending_hold_witness :
    alookup (probe_mutex_unlock
        (runEvents [.lock 1 7 100, .lockReturn 1 0 3 2100]) 1 7 5000).lock_end
      ⟨1, 7⟩ = none :=
  release_consumes_pending_hold [.lock 1 7 100, .lockReturn 1 0 3 2100]
    1 7 5000 ⟨2100, 3⟩ (by decide)

/-! ### Correctness of the bcc log2 helper, and claim C4 -/

set_option maxHeartbeats 1000000 in
/-- On the range of a C `unsigned int`, `bpf_log2` computes the floor of the
base-2 logarithm (its four branchless stages locate the highest set bit). -/
theorem bpf_log2_eq_log2 (v : Nat) (h1 : 0 < v) (h2 : v < 4294967296) :
    bpf_log2 v = Nat.log2 v := by
  have hlog : ∀ j : Nat, 2 ^ j ≤ v → v < 2 ^ (j + 1) → Nat.log2 v = j := by
    intro j hj1 hj2
    rw [Nat.log2_eq_log_two]
    exact Nat.log_eq_of_pow_le_of_lt_pow hj1 hj2
  unfold bpf_log2
  simp only [Nat.shiftLeft_eq, Nat.shiftRight_eq_div_pow, one_mul, zero_mul]
  split_ifs
  all_goals norm_num
  all_goals first
    | (have h0 : v / 65536 / 256 / 16 / 4 / 2 = 0 ∨ v / 65536 / 256 / 16 / 4 / 2 = 1 := by omega
       rcases h0 with hE | hE <;> rw [hE]
       · rw [hlog 30 (by omega) (by omega)]; try decide
       · rw [hlog 31 (by omega) (by omega)]; try decide)
    | (have h0 : v / 65536 / 256 / 16 / 2 = 0 ∨ v / 65536 / 256 / 16 / 2 = 1 := by omega
       rcases h0 with hE | hE <;> rw [hE]
       · rw [hlog 28 (by omega) (by omega)]; try decide
       · rw [hlog 29 (by omega) (by omega)]; try decide)
    | (have h0 : v / 65536 / 256 / 4 / 2 = 0 ∨ v / 65536 / 256 / 4 / 2 = 1 := by omega
       rcases h0 with hE | hE <;> rw [hE]
       · rw [hlog 26 (by omega) (by omega)]; try decide
       · rw [hlog 27 (by omega) (by omega)]; try decide)
    | (have h0 : v / 65536 / 256 / 2 = 0 ∨ v / 65536 / 256 / 2 = 1 := by omega
       rcases h0 with hE | hE <;> rw [hE]
       · rw [hlog 24 (by omega) (by omega)]; try decide
       · rw [hlog 25 (by omega) (by omega)]; try decide)
    | (have h0 : v / 65536 / 16 / 4 / 2 = 0 ∨ v / 65536 / 16 / 4 / 2 = 1 := by omega
       rcases h0 with hE | hE <;> rw [hE]
       · rw [hlog 22 (by omega) (by omega)]; try decide
       · rw [hlog 23 (by omega) (by omega)]; try decide)
    | (have h0 : v / 65536 / 16 / 2 = 0 ∨ v / 65536 / 16 / 2 = 1 := by omega
       rcases h0 with hE | hE <;> rw [hE]
       · rw [hlog 20 (by omega) (by omega)]; try decide
       · rw [hlog 21 (by omega) (by omega)]; try decide)
    | (have h0 : v / 65536 / 4 / 2 = 0 ∨ v / 65536 / 4 / 2 = 1 := by omega
       rcases h0 with hE | hE <;> rw [hE]
       · rw [hlog 18 (by omega) (by omega)]; try decide
       · rw [hlog 19 (by omega) (by omega)]; try decide)
    | (have h0 : v / 65536 / 2 = 0 ∨ v / 65536 / 2 = 1 := by omega
       rcases h0 with hE | hE <;> rw [hE]
       · rw [hlog 16 (by omega) (by omega)]; try decide
       · rw [hlog 17 (by omega) (by omega)]; try decide)
    | (have h0 : v / 256 / 16 / 4 / 2 = 0 ∨ v / 256 / 16 / 4 / 2 = 1 := by omega
       rcases h0 with hE | hE <;> rw [hE]
       · rw [hlog 14 (by omega) (by omega)]; try decide
       · rw [hlog 15 (by omega) (by omega)]; try decide)
    | (have h0 : v / 256 / 16 / 2 = 0 ∨ v / 256 / 16 / 2 = 1 := by omega
       rcases h0 with hE | hE <;> rw [hE]
       · rw [hlog 12 (by omega) (by omega)]; try decide
       · rw [hlog 13 (by omega) (by omega)]; try decide)
    | (have h0 : v / 256 / 4 / 2 = 0 ∨ v / 256 / 4 / 2 = 1 := by omega
       rcases h0 with hE | hE <;> rw [hE]
       · rw [hlog 10 (by omega) (by omega)]; try decide
       · rw [hlog 11 (by omega) (by omega)]; try decide)
    | (have h0 : v / 256 / 2 = 0 ∨ v / 256 / 2 = 1 := by omega
       rcases h0 with hE | hE <;> rw [hE]
       · rw [hlog 8 (by omega) (by omega)]; try decide
       · rw [hlog 9 (by omega) (by omega)]; try decide)
    | (have h0 : v / 16 / 4 / 2 = 0 ∨ v / 16 / 4 / 2 = 1 := by omega
       rcases h0 with hE | hE <;> rw [hE]
       · rw [hlog 6 (by omega) (by omega)]; try decide
       · rw [hlog 7 (by omega) (by omega)]; try decide)
    | (have h0 : v / 16 / 2 = 0 ∨ v / 16 / 2 = 1 := by omega
       rcases h0 with hE | hE <;> rw [hE]
       · rw [hlog 4 (by omega) (by omega)]; try decide
       · rw [hlog 5 (by omega) (by omega)]; try decide)
    | (have h0 : v / 4 / 2 = 0 ∨ v / 4 / 2 = 1 := by omega
       rcases h0 with hE | hE <;> rw [hE]
       · rw [hlog 2 (by omega) (by omega)]; try decide
       · rw [hlog 3 (by omega) (by omega)]; try decide)
    | (have h0 : v / 2 = 0 ∨ v / 2 = 1 := by omega
       rcases h0 with hE | hE <;> rw [hE]
       · rw [hlog 0 (by omega) (by omega)]; try decide
       · rw [hlog 1 (by omega) (by omega)]; try decide)

theorem log2_div_pow (m k : Nat) (h : 2 ^ k ≤ m) :
    Nat.log2 (m / 2 ^ k) + k = Nat.log2 m := by
  induction k with
  | zero => simp
  | succ k ih =>
    have hk : 2 ^ k ≤ m :=
      le_trans (Nat.pow_le_pow_right (by norm_num) (Nat.le_succ k)) h
    have h2 : 2 ≤ m / 2 ^ k := by
      rw [Nat.le_div_iff_mul_le (Nat.pos_pow_of_pos k (by norm_num))]
      calc 2 * 2 ^ k = 2 ^ (k + 1) := (pow_succ' 2 k).symm
        _ ≤ m := h
    have hstep : Nat.log2 (m / 2 ^ (k + 1)) = Nat.log2 (m / 2 ^ k) - 1 := by
      rw [pow_succ, ← Nat.div_div_eq_div_mul, Nat.log2_eq_log_two,
        Nat.log2_eq_log_two, Nat.log_div_base]
    have h1' : 1 ≤ Nat.log2 (m / 2 ^ k) := by
      rw [Nat.log2_eq_log_two]
      exact (Nat.pow_le_iff_le_log (by norm_num) (by omega)).mp (by simpa using h2)
    omega

/-- On the range of a C `u64`, `bpf_log2l v` is `⌊log2 v⌋ + 1` for `v ≥ 1`
(it is 1 for `v = 0`). -/
theorem bpf_log2l_eq (m : Nat) (h1 : 0 < m) (h2 : m < U64) :
    bpf_log2l m = Nat.log2 m + 1 := by
  have h2' : m < 18446744073709551616 := by
    simpa [U64] using h2
  unfold bpf_log2l
  by_cases hhi : m >>> 32 = 0
  · rw [if_neg (fun hc => hc hhi)]
    have hm32 : m < 4294967296 := by
      rw [Nat.shiftRight_eq_div_pow] at hhi
      omega
    rw [bpf_log2_eq_log2 m h1 hm32]
  · rw [if_pos hhi]
    have hge : 4294967296 ≤ m := by
      rw [Nat.shiftRight_eq_div_pow] at hhi
      omega
    have hlt : m >>> 32 < 4294967296 := by
      rw [Nat.shiftRight_eq_div_pow]
      omega
    have hpos : 0 < m >>> 32 := by
      rw [Nat.shiftRight_eq_div_pow]
      omega
    rw [bpf_log2_eq_log2 _ hpos hlt]
    have hdiv := log2_div_pow m 32 (by omega)
    rw [Nat.shiftRight_eq_div_pow]
    omega

theorem bpf_log2l_eq_witness :
    0 < 50 ∧ 50 < U64 ∧ bpf_log2l 50 = Nat.log2 50 + 1 :=
  ⟨by decide, by decide, bpf_log2l_eq 50 (by decide) (by decide)⟩

/-- C4, counterexample: for a wait of `d = 1000` ns (`d / 1000 = 1` µs), the
claim predicts that histogram slot `⌊log2(d/1000)⌋ = 0` is incremented, but
the handler increments slot 1 (bcc's `bpf_log2l` returns `⌊log2 v⌋ + 1`):
after the trace the count at slot `⌊log2(d/1000)⌋` is still 0 and the count
at slot `⌊log2(d/1000)⌋ + 1` is 1. -/
theorem histogram_bucket_counterexample :
    Nat.log2 (1000 / 1000) = 0 ∧
    histCount (runEvents [.lock 1 1 0, .lockReturn 1 0 3 1000]).mutex_wait_hist
        (Nat.log2 (1000 / 1000)) = 0 ∧
    histCount (runEvents [.lock 1 1 0, .lockReturn 1 0 3 1000]).mutex_wait_hist
        (Nat.log2 (1000 / 1000) + 1) = 1 := by
  have h0 : Nat.log2 (1000 / 1000) = 0 := by
    simp [Nat.log2]
  refine ⟨h0, ?_, ?_⟩ <;> rw [h0] <;> decide

/-- C4 (amended): for a duration of `d` nanoseconds with `d ≥ 1000`, the slot
incremented in the (wait or hold) histogram is `⌊log2(d/1000)⌋ + 1`, not
`⌊log2(d/1000)⌋`; equivalently, slot `b + 1` receives exactly the durations
whose microsecond value lies in `[2^b, 2^(b+1))` — the boundaries still fall
at exact powers of two of the microsecond value. -/
theorem histogram_bucket_amended (d : Nat) (h1 : 1000 ≤ d) (h2 : d < U64) :
    bpf_log2l (d / 1000) = Nat.log2 (d / 1000) + 1 ∧
    ∀ b : Nat, (bpf_log2l (d / 1000) = b + 1 ↔
      2 ^ b ≤ d / 1000 ∧ d / 1000 < 2 ^ (b + 1)) := by
  have hU : U64 = 18446744073709551616 := rfl
  have hm1 : 0 < d / 1000 := by omega
  have hm2 : d / 1000 < U64 := by omega
  have heq := bpf_log2l_eq (d / 1000) hm1 hm2
  refine ⟨heq, fun b => ?_⟩
  rw [heq]
  constructor
  · intro hb
    have hlb : Nat.log2 (d / 1000) = b := by omega
    constructor
    · rw [← hlb, Nat.log2_eq_log_two]
      exact Nat.pow_log_le_self 2 (by omega)
    · rw [← hlb, Nat.log2_eq_log_two]
      exact Nat.lt_pow_succ_log_self (by norm_num) _
  · rintro ⟨hb1, hb2⟩
    have : Nat.log2 (d / 1000) = b := by
      rw [Nat.log2_eq_log_two]
      exact Nat.log_eq_of_pow_le_of_lt_pow hb1 hb2
    omega

theorem histogram_bucket_amended_witness :
    bpf_log2l (50000 / 1000) = Nat.log2 (50000 / 1000) + 1 ∧
    ∀ b : Nat, (bpf_log2l (50000 / 1000) = b + 1 ↔
      2 ^ b ≤ 50000 / 1000 ∧ 50000 / 1000 < 2 ^ (b + 1)) :=
  histogram_bucket_amended 50000 (by decide) (by decide)

/-- C5: an `AttemptEnd` (`probe_mutex_lock_return`) for a thread with no
pending wait returns with the whole state unchanged. -/
theorem missed_attempt_end_noop (s : BPFState) (t rc : Nat) (sid : Int)
    (now : Nat) (h : alookup s.lock_start t = none) :
    probe_mutex_lock_return s t rc sid now = s := by
  simp only [probe_mutex_lock_return, h]

theorem missed_attempt_end_noop_witness :
    probe_mutex_lock_return (runEvents [.lock 2 7 100]) 1 0 3 500
      = runEvents [.lock 2 7 100] :=
  missed_attempt_end_noop _ 1 0 3 500 (by decide)

/-- C6: a `Release` (`probe_mutex_unlock`) for a (thread, lock) pair with no
pending hold returns with the whole state unchanged. -/
theorem missed_release_noop (s : BPFState) (t l now : Nat)
    (h : alookup s.lock_end ⟨t, l⟩ = none) :
    probe_mutex_unlock s t l now = s := by
  simp only [probe_mutex_unlock, h]

theorem missed_release_noop_witness :
    probe_mutex_unlock (runEvents [.lock 1 7 100]) 1 7 500
      = runEvents [.lock 1 7 100] :=
  missed_release_noop _ 1 7 500 (by decide)

/-- C3: a failed `AttemptEnd` (non-zero return value) that matches a pending
wait removes the pending wait, adds `T1 − T0` to the row's `wait_time_ns`,
bumps the wait histogram at the computed slot, leaves `enter_count`
unchanged, and creates no pending hold (`lock_end` is untouched). -/
theorem failed_attempt_end (s : BPFState) (t l T0 rc : Nat) (sid : Int)
    (T1 : Nat)
    (hpend : alookup s.lock_start t = some ⟨l, T0⟩)
    (hrc : rc ≠ 0)
    (hord : T0 ≤ T1) (hT1 : T1 < U64)
    (hwait : waitOf s ⟨t, l, sid⟩ + (T1 - T0) < U64)
    (hhist : histCount s.mutex_wait_hist (bpf_log2l ((T1 - T0) / 1000)) + 1 < U64) :
    alookup (probe_mutex_lock_return s t rc sid T1).lock_start t = none ∧
    waitOf (probe_mutex_lock_return s t rc sid T1) ⟨t, l, sid⟩
      = waitOf s ⟨t, l, sid⟩ + (T1 - T0) ∧
    enterOf (probe_mutex_lock_return s t rc sid T1) ⟨t, l, sid⟩
      = enterOf s ⟨t, l, sid⟩ ∧
    histCount (probe_mutex_lock_return s t rc sid T1).mutex_wait_hist
        (bpf_log2l ((T1 - T0) / 1000))
      = histCount s.mutex_wait_hist (bpf_log2l ((T1 - T0) / 1000)) + 1 ∧
    (probe_mutex_lock_return s t rc sid T1).lock_end = s.lock_end := by
  simp only [probe_mutex_lock_return, hpend, if_neg hrc, sub64_eq T1 T0 hord hT1]
  refine ⟨alookup_adelete_self _ _, ?_, ?_, ?_, by trivial⟩
  · simp only [waitOf, alookup_aupdate_self, Option.getD_some]
    exact add64_eq _ _ hwait
  · simp only [enterOf, alookup_aupdate_self, Option.getD_some]
  · rw [histCount_hincr_self]
    exact add64_eq _ _ hhist

theorem failed_attempt_end_witness :
    alookup (probe_mutex_lock_return (runEvents [.lock 1 7 100]) 1 22 3 2100).lock_start 1
      = none ∧
    waitOf (probe_mutex_lock_return (runEvents [.lock 1 7 100]) 1 22 3 2100) ⟨1, 7, 3⟩
      = waitOf (runEvents [.lock 1 7 100]) ⟨1, 7, 3⟩ + (2100 - 100) ∧
    enterOf (probe_mutex_lock_return (runEvents [.lock 1 7 100]) 1 22 3 2100) ⟨1, 7, 3⟩
      = enterOf (runEvents [.lock 1 7 100]) ⟨1, 7, 3⟩ ∧
    histCount (probe_mutex_lock_return (runEvents [.lock 1 7 100]) 1 22 3 2100).mutex_wait_hist
        (bpf_log2l ((2100 - 100) / 1000))
      = histCount (runEvents [.lock 1 7 100]).mutex_wait_hist
          (bpf_log2l ((2100 - 100) / 1000)) + 1 ∧
    (probe_mutex_lock_return (runEvents [.lock 1 7 100]) 1 22 3 2100).lock_end
      = (runEvents [.lock 1 7 100]).lock_end :=
  failed_attempt_end _ 1 7 100 22 3 2100 (by decide) (by decide) (by decide)
    (by decide) (by decide) (by decide)

theorem groupRuns_flatten {α κ : Type} [DecidableEq κ] (f : α → κ)
    (l : List α) : (groupRuns f l).flatten = l := by
  induction l with
  | nil => rfl
  | cons a as ih =>
    simp only [groupRuns]
    rcases h : groupRuns f as with _ | ⟨g, gs⟩
    · rw [h] at ih
      simp only [List.flatten_nil] at ih
      simp [← ih]
    · rcases g with _ | ⟨b, g0⟩
      · rw [h] at ih
        simp only [List.flatten_cons, List.nil_append] at ih
        simp [ih]
      · rw [h] at ih
        simp only [List.flatten_cons] at ih
        by_cases hf : f a = f b
        · simp only [hf, if_pos rfl, ite_true, List.flatten_cons]
          simp [ih]
        · simp only [if_neg hf, List.flatten_cons]
          simp [ih]

theorem groupRuns_key_eq {α κ : Type} [DecidableEq κ] (f : α → κ)
    (l : List α) : ∀ g ∈ groupRuns f l, ∀ a ∈ g, ∀ b ∈ g, f a = f b := by
  induction l with
  | nil =>
    intro g hg
    cases hg
  | cons a as ih =>
    intro g hg x hx y hy
    simp only [groupRuns] at hg
    rcases h : groupRuns f as with _ | ⟨g0, gs⟩ <;> rw [h] at hg
    · simp only [List.mem_singleton] at hg
      subst hg
      simp only [List.mem_singleton] at hx hy
      subst hx
      subst hy
      rfl
    · rcases g0 with _ | ⟨b, g1⟩
      · rcases List.mem_cons.mp hg with rfl | hg2
        · simp only [List.mem_singleton] at hx hy
          subst hx
          subst hy
          rfl
        · exact ih g (by rw [h]; exact List.mem_cons_of_mem _ hg2) x hx y hy
      · dsimp only at hg
        by_cases hf : f a = f b
        · rw [if_pos hf] at hg
          rcases List.mem_cons.mp hg with rfl | hg2
          · have hall : ∀ z ∈ b :: g1, f z = f b := fun z hz =>
              ih (b :: g1) (by rw [h]; exact List.mem_cons_self _ _) z hz
                b (List.mem_cons_self _ _)
            have hx' : f x = f b := by
              rcases List.mem_cons.mp hx with rfl | hx2
              · exact hf
              · exact hall x hx2
            have hy' : f y = f b := by
              rcases List.mem_cons.mp hy with rfl | hy2
              · exact hf
              · exact hall y hy2
            rw [hx', hy']
          · exact ih g (by rw [h]; exact List.mem_cons_of_mem _ hg2) x hx y hy
        · rw [if_neg hf] at hg
          rcases List.mem_cons.mp hg with rfl | hg2
          · simp only [List.mem_singleton] at hx hy
            subst hx
            subst hy
            rfl
          · exact ih g (by rw [h]; exact hg2) x hx y hy

theorem mem_of_alookup_eq_some {κ ν : Type} [DecidableEq κ]
    (m : List (κ × ν)) (k : κ) (v : ν) (h : alookup m k = some v) :
    (k, v) ∈ m := by
  induction m with
  | nil => cases h
  | cons p m ih =>
    obtain ⟨k0, v0⟩ := p
    by_cases hk : k = k0
    · subst hk
      simp only [alookup, if_pos rfl] at h
      cases Option.some.inj h
      exact List.mem_cons_self _ _
    · simp only [alookup, if_neg hk] at h
      exact List.mem_cons_of_mem _ (ih h)

theorem flatten_map_mergeSort_perm (le : LockRow → LockRow → Bool)
    (gs : List (List LockRow)) :
    ((gs.map (fun g => g.mergeSort le)).flatten).Perm gs.flatten := by
  induction gs with
  | nil => exact List.Perm.refl _
  | cons g gs ih =>
    simp only [List.map_cons, List.flatten_cons]
    exact (List.mergeSort_perm g le).append ih

/-- The reporter renders exactly the rows of its input: the grouped, sorted
view is a permutation of the `locks` table. -/
theorem reportGroups_flatten_perm (rows : List LockRow) :
    ((reportGroups rows).flatten).Perm rows := by
  unfold reportGroups
  refine (flatten_map_mergeSort_perm _ _).trans ?_
  rw [groupRuns_flatten]
  exact List.mergeSort_perm rows byThread

/-- C8: in the reporting pass, every rendered group consists of rows of one
thread, ordered descending by cumulative `wait_time_ns`; in particular three
rows of thread 5 with wait times 300, 100, 200 render as 300, 200, 100. -/
theorem report_grouped_sorted :
    (∀ (rows : List LockRow) (g : List LockRow), g ∈ reportGroups rows →
      (∀ a ∈ g, ∀ b ∈ g, a.1.tid = b.1.tid) ∧
      g.Pairwise (fun a b => b.2.wait_time_ns ≤ a.2.wait_time_ns)) ∧
    (reportGroups [(⟨5, 1, 0⟩, ⟨300, 0, 0⟩), (⟨5, 2, 0⟩, ⟨100, 0, 0⟩),
        (⟨5, 3, 0⟩, ⟨200, 0, 0⟩)]).map
        (fun g => g.map (fun r => r.2.wait_time_ns))
      = [[300, 200, 100]] := by
  constructor
  · intro rows g hg
    obtain ⟨g0, hg0, rfl⟩ := List.mem_map.mp hg
    constructor
    · intro a ha b hb
      exact groupRuns_key_eq _ _ g0 hg0 a (List.mem_mergeSort.mp ha)
        b (List.mem_mergeSort.mp hb)
    · have htrans : ∀ a b c : LockRow,
          byWaitDesc a b → byWaitDesc b c → byWaitDesc a c := by
        intro a b c hab hbc
        simp only [byWaitDesc, decide_eq_true_eq] at *
        omega
      have htotal : ∀ a b : LockRow, byWaitDesc a b || byWaitDesc b a := by
        intro a b
        simp only [byWaitDesc, Bool.or_eq_true, decide_eq_true_eq]
        omega
      have hs := List.sorted_mergeSort htrans htotal g0
      exact hs.imp (fun hab => by
        simpa only [byWaitDesc, decide_eq_true_eq] using hab)
  · simp only [reportGroups]
    norm_num [List.mergeSort, List.merge, List.splitInTwo, List.splitAt,
      List.splitAt.go, byThread, byWaitDesc, groupRuns]

theorem report_grouped_sorted_witness :
    (∀ a ∈ [((⟨5, 1, 0⟩ : thread_mutex_key_t), (⟨300, 0, 0⟩ : thread_mutex_val_t)),
        (⟨5, 3, 0⟩, ⟨200, 0, 0⟩), (⟨5, 2, 0⟩, ⟨100, 0, 0⟩)],
      ∀ b ∈ [((⟨5, 1, 0⟩ : thread_mutex_key_t), (⟨300, 0, 0⟩ : thread_mutex_val_t)),
        (⟨5, 3, 0⟩, ⟨200, 0, 0⟩), (⟨5, 2, 0⟩, ⟨100, 0, 0⟩)],
      a.1.tid = b.1.tid) ∧
    List.Pairwise (fun a b : LockRow => b.2.wait_time_ns ≤ a.2.wait_time_ns)
      [(⟨5, 1, 0⟩, ⟨300, 0, 0⟩), (⟨5, 3, 0⟩, ⟨200, 0, 0⟩),
        (⟨5, 2, 0⟩, ⟨100, 0, 0⟩)] :=
  report_grouped_sorted.1
    [(⟨5, 1, 0⟩, ⟨300, 0, 0⟩), (⟨5, 2, 0⟩, ⟨100, 0, 0⟩),
      (⟨5, 3, 0⟩, ⟨200, 0, 0⟩)]
    [(⟨5, 1, 0⟩, ⟨300, 0, 0⟩), (⟨5, 3, 0⟩, ⟨200, 0, 0⟩),
      (⟨5, 2, 0⟩, ⟨100, 0, 0⟩)]
    (by
      simp only [reportGroups]
      norm_num [List.mergeSort, List.merge, List.splitInTwo, List.splitAt,
        List.splitAt.go, byThread, byWaitDesc, groupRuns])

/-- C10: a failed `AttemptEnd` that matches a pending wait creates (if the
key was absent) a `locks` row with `enter_count` 0 and `lock_time_ns` 0 but
positive `wait_time_ns`, and the reporter renders that row like any other
(the rendered view is a permutation of the table, so the row appears in it). -/
theorem failed_attempt_creates_zero_enter_row (s : BPFState) (t l T0 rc : Nat)
    (sid : Int) (T1 : Nat)
    (hpend : alookup s.lock_start t = some ⟨l, T0⟩)
    (hrc : rc ≠ 0)
    (habsent : alookup s.locks ⟨t, l, sid⟩ = none)
    (hord : T0 < T1) (hT1 : T1 < U64) :
    alookup (probe_mutex_lock_return s t rc sid T1).locks ⟨t, l, sid⟩
      = some ⟨T1 - T0, 0, 0⟩ ∧
    0 < T1 - T0 ∧
    (⟨⟨t, l, sid⟩, ⟨T1 - T0, 0, 0⟩⟩ : LockRow)
      ∈ (reportGroups (probe_mutex_lock_return s t rc sid T1).locks).flatten := by
  have hU : U64 = 18446744073709551616 := rfl
  have hrow : alookup (probe_mutex_lock_return s t rc sid T1).locks ⟨t, l, sid⟩
      = some ⟨T1 - T0, 0, 0⟩ := by
    simp only [probe_mutex_lock_return, hpend, if_neg hrc]
    simp only [habsent, Option.getD_none]
    rw [show ({ s with lock_start := adelete s.lock_start t } : BPFState).locks
        = s.locks from rfl]
    rw [sub64_eq T1 T0 (le_of_lt hord) hT1,
      add64_eq 0 (T1 - T0) (by omega)]
    simp [alookup_aupdate_self]
  refine ⟨hrow, by omega, ?_⟩
  exact (reportGroups_flatten_perm _).mem_iff.mpr
    (mem_of_alookup_eq_some _ _ _ hrow)

theorem failed_attempt_creates_zero_enter_row_witness :
    alookup (probe_mutex_lock_return (runEvents [.lock 1 8 100]) 1 16 4 1600).locks
        ⟨1, 8, 4⟩ = some ⟨1600 - 100, 0, 0⟩ ∧
    0 < 1600 - 100 ∧
    (⟨⟨1, 8, 4⟩, ⟨1600 - 100, 0, 0⟩⟩ : LockRow)
      ∈ (reportGroups (probe_mutex_lock_return (runEvents [.lock 1 8 100])
          1 16 4 1600).locks).flatten :=
  failed_attempt_creates_zero_enter_row (runEvents [.lock 1 8 100]) 1 8 100 16
    4 1600 (by decide) (by decide) (by decide) (by decide) (by decide)

/-- C9, counterexample: invoked with no positional argument, the script
prints the one-line usage message but exits with status 0 — not, as the
claim states, with a non-zero status. -/
theorem usage_exit_status_counterexample :
    pythonMain ["./lockstat-solution.py"]
      = .usageExit "USAGE: ./lockstat-solution.py pid" 0 ∧
    ¬ (∃ msg c, pythonMain ["./lockstat-solution.py"] = .usageExit msg c ∧
        c ≠ 0) := by
  constructor
  · rfl
  · rintro ⟨msg, c, heq, hne⟩
    rw [show pythonMain ["./lockstat-solution.py"]
        = .usageExit "USAGE: ./lockstat-solution.py pid" 0 from rfl] at heq
    cases heq
    exact hne rfl

/-- C9 (amended): with fewer than two `argv` entries the script prints the
one-line usage message and exits with status **0**; with the pid argument
present it enters `run`, whose polling loop's guard is the constant `True`
(and the loop body has no exit path), so it runs until externally
terminated. -/
theorem usage_and_run_behavior (argv : List String) :
    (argv.length < 2 → pythonMain argv = .usageExit (usageLine argv) 0) ∧
    (2 ≤ argv.length → pythonMain argv = .runLoop (argv.getD 1 "")) ∧
    runLoopGuard = true := by
  refine ⟨fun h => ?_, fun h => ?_, rfl⟩
  · simp [pythonMain, h]
  · simp [pythonMain, Nat.not_lt.mpr h]

theorem usage_and_run_behavior_witness :
    pythonMain ["./lockstat-solution.py"]
      = .usageExit (usageLine ["./lockstat-solution.py"]) 0 ∧
    pythonMain ["./lockstat-solution.py", "1234"]
      = .runLoop (["./lockstat-solution.py", "1234"].getD 1 "") :=
  ⟨(usage_and_run_behavior ["./lockstat-solution.py"]).1 (by decide),
    (usage_and_run_behavior ["./lockstat-solution.py", "1234"]).2.1 (by decide)⟩

end LockStat
